import Mathlib

/-!
Shallow embedding of `src/main.py` of Lab_Space_Viewer.

The program is a linear pipeline: decode an image, resample it by a
dpi ratio, convert RGB pixels to CIE-Lab, and render a 3D scatter and
per-lightness-level a*b* panels.  Numeric values are modelled with `ℚ`;
the per-pixel colorimetric conversions `rgb2lab` / `lab2rgb` are external
library routines (skimage.color) and are modelled as an arbitrary
per-pixel function argument `conv`, while everything the repository
itself computes (dpi handling, scale, size arithmetic, normalization,
flattening, filtering, clipping, panel construction) is embedded
faithfully.
-/

namespace LabSpaceViewer

/-- Truncation toward zero on `ℚ`, the behavior of Python `int(...)`
applied to a (real-valued) quantity. -/
def truncQ (q : ℚ) : ℤ := if 0 ≤ q then ⌊q⌋ else -⌊-q⌋

/-- Extraction of the original resolution in
`load_and_downsample_image`: the horizontal (first) component of the dpi
metadata pair, with the pair `(72, 72)` used when the metadata is
absent. -/
def originalDpi (meta : Option (ℚ × ℚ)) : ℚ := (meta.getD (72, 72)).1

/-- The size computation of `load_and_downsample_image` in `src/main.py`:
`scale = target_dpi / original_dpi` and
`new_size = (int(width * scale), int(height * scale))`.
Python raises `ZeroDivisionError` when `original_dpi` is zero, modelled
as `Except.error`; the actual pixel resampling (`img.resize`) is
delegated to PIL and not part of the arithmetic of this repository. -/
def load_and_downsample_image (meta : Option (ℚ × ℚ)) (width height : ℕ)
    (target_dpi : ℚ) : Except String (ℤ × ℤ) :=
  let dpi := originalDpi meta
  if dpi = 0 then Except.error ("ZeroDivisionError")
  else
    let scale : ℚ := target_dpi / dpi
    Except.ok (truncQ ((width : ℚ) * scale), truncQ ((height : ℚ) * scale))


/-! ## Color converter -/

/-- An RGB or Lab triple (one pixel / one sample). -/
abbrev Pixel : Type := ℚ × ℚ × ℚ

/-- The three channel values of a pixel. -/
def pixelVals (p : Pixel) : List ℚ := [p.1, p.2.1, p.2.2]

/-- A raster image: a list of rows, each row a list of pixels
(numpy array of shape (height, width, 3), row-major). -/
abbrev Image : Type := List (List Pixel)

/-- All channel values occurring in an image (what `image_array.max()`
ranges over). -/
def imageVals (img : Image) : List ℚ :=
  (img.map (fun row => (row.map pixelVals).flatten)).flatten

/-- Per-channel division by 255 (`image_array / 255.0`). -/
def divPixel (p : Pixel) : Pixel := (p.1 / 255, p.2.1 / 255, p.2.2 / 255)

/-- The normalization step of `rgb_to_lab_pixels`:
`if image_array.max() > 1: image_array = image_array / 255.0`. -/
def normalizeImage (img : Image) : Image :=
  if (imageVals img).any (fun v => decide (1 < v)) then
    img.map (List.map divPixel)
  else img

/-- The function `rgb_to_lab_pixels` of `src/main.py`: normalize the input to unit range
when any value exceeds 1, convert every pixel to Lab, and flatten both
the Lab image and the normalized RGB image row-major into `(n, 3)` lists.
The per-pixel sRGB→Lab conversion (`skimage.color.rgb2lab`) is an external
library routine, taken as the argument `conv`. -/
def rgb_to_lab_pixels (conv : Pixel → Pixel) (image_array : Image) :
    List Pixel × List Pixel :=
  let normalized := normalizeImage image_array
  let lab_image := normalized.map (List.map conv)
  (lab_image.flatten, normalized.flatten)

/-- Absolute value on `ℚ` (`np.abs`), written so that it evaluates by
kernel reduction. -/
def absQ (q : ℚ) : ℚ := if q < 0 then -q else q

/-- Binary maximum on `ℚ`, written so that it evaluates by kernel
reduction. -/
def maxQ (a b : ℚ) : ℚ := if a ≤ b then b else a

/-- Binary minimum on `ℚ`, written so that it evaluates by kernel
reduction. -/
def minQ (a b : ℚ) : ℚ := if a ≤ b then a else b

theorem absQ_eq_abs (q : ℚ) : absQ q = |q| := by
  unfold absQ
  rcases lt_or_le q 0 with h | h
  · rw [if_pos h, abs_of_neg h]
  · rw [if_neg (not_lt.mpr h), abs_of_nonneg h]

theorem maxQ_eq_max (a b : ℚ) : maxQ a b = max a b := by
  unfold maxQ
  rcases le_total a b with h | h
  · rw [if_pos h, max_eq_right h]
  · rcases le_or_lt a b with h' | h'
    · rw [if_pos h', max_eq_right h']
    · rw [if_neg (not_le.mpr h'), max_eq_left h]

theorem minQ_eq_min (a b : ℚ) : minQ a b = min a b := by
  unfold minQ
  rcases le_or_lt a b with h | h
  · rw [if_pos h, min_eq_left h]
  · rw [if_neg (not_le.mpr h), min_eq_right h.le]

/-- Clipping of one channel to `[0, 1]` (`np.clip(x, 0, 1)`). -/
def clip01 (x : ℚ) : ℚ := minQ 1 (maxQ 0 x)

/-- Clipping of one triple to `[0, 1]` per channel. -/
def clipPixel (p : Pixel) : Pixel := (clip01 p.1, clip01 p.2.1, clip01 p.2.2)

/-- The function `lab_to_display_color` of `src/main.py`: each Lab triple is converted
independently (the `(-1, 1, 3)` reshape makes every sample its own 1×1
image), then the result is clipped per channel to `[0, 1]`.  The
per-sample Lab→sRGB conversion (`skimage.color.lab2rgb`) is an external
library routine, taken as the argument `conv`. -/
def lab_to_display_color (conv : Pixel → Pixel) (lab_values : List Pixel) :
    List Pixel :=
  (lab_values.map conv).map clipPixel

/-! ## Planar visualizer -/

/-- The fixed tolerance of the lightness-band filter in `plot_ab_planes`. -/
def tolerance : ℚ := 5

/-- The band filter of `plot_ab_planes`:
`mask = np.abs(lab_pixels[:, 0] - L_target) < tolerance;`
`filtered_pixels = lab_pixels[mask]`. -/
def filteredPixels (lab_pixels : List Pixel) (L_target : ℚ) : List Pixel :=
  lab_pixels.filter (fun p => decide (absQ (p.1 - L_target) < tolerance))

/-- One panel of the planar figure: either the placeholder text panel of
the empty-band branch or a scatter panel; both fix the axis extents, and
the title of a scatter panel reports the matched pixel count. -/
structure Panel where
  placeholder : Bool
  xlim : ℤ × ℤ
  ylim : ℤ × ℤ
  points : List Pixel
  titleCount : Option ℕ
  deriving DecidableEq, Repr

/-- The body of the `for idx, L_target in enumerate(L_values)` loop of
`plot_ab_planes`: filter the samples to the band around `L_target`; on an
empty band print a warning (returned as `some L_target`) and render a
placeholder panel with extents `[-128, 127]` on both axes; otherwise
scatter the filtered points with the same extents and report the count in
the panel title. -/
def renderPanel (lab_pixels : List Pixel) (L_target : ℚ) :
    Panel × Option ℚ :=
  let fp := filteredPixels lab_pixels L_target
  if fp.isEmpty then
    (⟨true, (-128, 127), (-128, 127), [], none⟩, some L_target)
  else
    (⟨false, (-128, 127), (-128, 127), fp, some fp.length⟩, none)

/-- The function `plot_ab_planes` of `src/main.py`: one panel per requested L* level,
in order, together with the list of emitted empty-band warnings (each
warning recorded as the level it was printed for). -/
def plot_ab_planes (lab_pixels : List Pixel) (L_values : List ℚ) :
    List Panel × List ℚ :=
  let results := L_values.map (renderPanel lab_pixels)
  (results.map Prod.fst, results.filterMap Prod.snd)

/-! ## Theorems about the image loader (claims C1, C2, C10) -/

/-- C1, counterexample: the resampled size is not the rounded-to-nearest
product.  For a 7×7 image at resolution 72 and target 50, the code
computes `int(7 * 50/72) = 4`, while `round(7 * 50/72) = 5`. -/
theorem load_size_not_round :
    load_and_downsample_image (some (72, 72)) 7 7 50 ≠
      Except.ok (round ((7 : ℚ) * 50 / 72), round ((7 : ℚ) * 50 / 72)) := by
  norm_num [load_and_downsample_image, originalDpi, truncQ, round_eq]

/-- C1 (amended): for positive original resolution `r` and nonnegative
target `T`, the loader resamples a `W×H` image to
`(⌊W*T/r⌋, ⌊H*T/r⌋)`: Python `int(...)` truncates the scaled
dimensions toward zero (here: floor), it does not round to nearest. -/
theorem load_size_floor (r v T : ℚ) (W H : ℕ) (hr : 0 < r) (hT : 0 ≤ T) :
    load_and_downsample_image (some (r, v)) W H T =
      Except.ok (⌊(W : ℚ) * T / r⌋, ⌊(H : ℚ) * T / r⌋) := by
  have hdpi : originalDpi (some (r, v)) = r := rfl
  have hW : (0 : ℚ) ≤ (W : ℚ) * (T / r) :=
    mul_nonneg (Nat.cast_nonneg W) (div_nonneg hT hr.le)
  have hH : (0 : ℚ) ≤ (H : ℚ) * (T / r) :=
    mul_nonneg (Nat.cast_nonneg H) (div_nonneg hT hr.le)
  unfold load_and_downsample_image
  rw [hdpi, if_neg (ne_of_gt hr)]
  simp only [truncQ, if_pos hW, if_pos hH, mul_div_assoc]

/-- C1, witness for `load_size_floor` at resolution 72, target 50,
size 7×7. -/
theorem load_size_floor_witness :
    (0 : ℚ) < 72 ∧ (0 : ℚ) ≤ 50 ∧
      load_and_downsample_image (some (72, 72)) 7 7 50 =
        Except.ok (⌊(7 : ℚ) * 50 / 72⌋, ⌊(7 : ℚ) * 50 / 72⌋) :=
  ⟨by norm_num, by norm_num,
    load_size_floor 72 72 50 7 7 (by norm_num) (by norm_num)⟩

/-- C2, counterexample: with resolution metadata present and negative
(`dpi = (-72, -72)`), the loader does not treat the input as a
validation failure: it proceeds, computing a negative scale and the
negative target size `(-69, -69)` for a 100×100 image at target 50. -/
theorem load_negative_dpi_proceeds :
    load_and_downsample_image (some (-72, -72)) 100 100 50 =
      Except.ok (-69, -69) := by
  norm_num [load_and_downsample_image, originalDpi, truncQ]

/-- C2 (amended): the loader performs no validation of non-positive
resolution metadata.  A zero resolution makes the scale computation fail
with a division-by-zero error; any nonzero resolution — negative
included — is used unguarded, scaling both dimensions by
`target / resolution`; fully absent metadata defaults the original
resolution to 72. -/
theorem load_resolution_validation (meta : Option (ℚ × ℚ)) (W H : ℕ)
    (T : ℚ) :
    (originalDpi meta = 0 →
      load_and_downsample_image meta W H T =
        Except.error ("ZeroDivisionError"))
    ∧ (originalDpi meta ≠ 0 →
      load_and_downsample_image meta W H T =
        Except.ok (truncQ ((W : ℚ) * (T / originalDpi meta)),
          truncQ ((H : ℚ) * (T / originalDpi meta))))
    ∧ originalDpi none = 72 := by
  refine ⟨fun h0 => ?_, fun hne => ?_, rfl⟩
  · unfold load_and_downsample_image
    rw [if_pos h0]
  · unfold load_and_downsample_image
    rw [if_neg hne]

/-- C2, witness for `load_resolution_validation`: zero metadata fails
with the division error, and negative metadata proceeds unguarded. -/
theorem load_resolution_validation_witness :
    (originalDpi (some (0, 72)) = 0 ∧
      load_and_downsample_image (some (0, 72)) 10 10 50 =
        Except.error ("ZeroDivisionError"))
    ∧ (originalDpi (some (-72, 5)) ≠ 0 ∧
      load_and_downsample_image (some (-72, 5)) 10 10 50 =
        Except.ok (truncQ ((10 : ℚ) * (50 / originalDpi (some (-72, 5)))),
          truncQ ((10 : ℚ) * (50 / originalDpi (some (-72, 5)))))) :=
  ⟨⟨rfl, (load_resolution_validation (some (0, 72)) 10 10 50).1 rfl⟩,
    ⟨by norm_num [originalDpi],
      (load_resolution_validation (some (-72, 5)) 10 10 50).2.1
        (by norm_num [originalDpi])⟩⟩

/-- C10: the loader reads only the horizontal (first) component of the
resolution metadata pair; the vertical component is silently ignored,
and for nonzero horizontal resolution both output dimensions are scaled
by `target / horizontal`. -/
theorem load_ignores_vertical_dpi (rh rv rv' T : ℚ) (W H : ℕ) :
    load_and_downsample_image (some (rh, rv)) W H T =
      load_and_downsample_image (some (rh, rv')) W H T
    ∧ originalDpi (some (rh, rv)) = rh
    ∧ (rh ≠ 0 →
      load_and_downsample_image (some (rh, rv)) W H T =
        Except.ok (truncQ ((W : ℚ) * (T / rh)),
          truncQ ((H : ℚ) * (T / rh)))) := by
  refine ⟨rfl, rfl, fun hne => ?_⟩
  unfold load_and_downsample_image
  rw [show originalDpi (some (rh, rv)) = rh from rfl, if_neg hne]

/-- C10, witness for `load_ignores_vertical_dpi` with unequal horizontal
and vertical resolutions. -/
theorem load_ignores_vertical_dpi_witness :
    (load_and_downsample_image (some (72, 1)) 4 6 50 =
      load_and_downsample_image (some (72, 999)) 4 6 50)
    ∧ originalDpi (some ((72 : ℚ), 1)) = 72
    ∧ ((72 : ℚ) ≠ 0 ∧
      load_and_downsample_image (some (72, 1)) 4 6 50 =
        Except.ok (truncQ ((4 : ℚ) * (50 / 72)),
          truncQ ((6 : ℚ) * (50 / 72)))) :=
  ⟨(load_ignores_vertical_dpi 72 1 999 50 4 6).1,
    (load_ignores_vertical_dpi 72 1 999 50 4 6).2.1,
    by norm_num,
    (load_ignores_vertical_dpi 72 1 999 50 4 6).2.2 (by norm_num)⟩

/-! ## Theorems about the color converter (claims C4, C5, C6, C8) -/

theorem clip01_bounds (x : ℚ) : 0 ≤ clip01 x ∧ clip01 x ≤ 1 := by
  unfold clip01
  rw [minQ_eq_min, maxQ_eq_max]
  exact ⟨le_min (by norm_num) (le_max_left 0 x), min_le_left 1 _⟩

/-- C4: every channel of every triple returned by `lab_to_display_color`
lies in `[0, 1]`, for any per-sample conversion `conv` (in particular the
library Lab→sRGB conversion, whatever it returns on implausible or
out-of-gamut input). -/
theorem lab_to_display_color_clipped (conv : Pixel → Pixel)
    (labs : List Pixel) (p : Pixel)
    (hp : p ∈ lab_to_display_color conv labs) :
    (0 ≤ p.1 ∧ p.1 ≤ 1) ∧ (0 ≤ p.2.1 ∧ p.2.1 ≤ 1) ∧
      (0 ≤ p.2.2 ∧ p.2.2 ≤ 1) := by
  unfold lab_to_display_color at hp
  rcases List.mem_map.mp hp with ⟨q, -, rfl⟩
  exact ⟨clip01_bounds q.1, clip01_bounds q.2.1, clip01_bounds q.2.2⟩

/-- C4, witness for `lab_to_display_color_clipped` on a conversion
returning the out-of-gamut triple `(2, -3, 1/2)`. -/
theorem lab_to_display_color_clipped_witness :
    (((1 : ℚ), (0 : ℚ), (1/2 : ℚ)) ∈
        lab_to_display_color (fun _ => (2, -3, 1/2)) [((0 : ℚ), 0, 0)])
    ∧ ((0 ≤ (1 : ℚ) ∧ (1 : ℚ) ≤ 1) ∧ (0 ≤ (0 : ℚ) ∧ (0 : ℚ) ≤ 1) ∧
      (0 ≤ (1/2 : ℚ) ∧ (1/2 : ℚ) ≤ 1)) :=
  have hp : ((1 : ℚ), (0 : ℚ), (1/2 : ℚ)) ∈
      lab_to_display_color (fun _ => (2, -3, 1/2)) [((0 : ℚ), 0, 0)] := by
    norm_num [lab_to_display_color, clipPixel, clip01, minQ, maxQ]
  ⟨hp, lab_to_display_color_clipped (fun _ => (2, -3, 1/2))
    [((0 : ℚ), 0, 0)] ((1 : ℚ), (0 : ℚ), (1/2 : ℚ)) hp⟩

/-- C8: `lab_to_display_color` maps the empty sequence of Lab triples to
the empty sequence (a total function: no error is possible). -/
theorem lab_to_display_color_empty (conv : Pixel → Pixel) :
    lab_to_display_color conv [] = [] := rfl

/-- C6: `rgb_to_lab_pixels` divides by 255 exactly when some channel
value exceeds 1: if some value of the input exceeds 1 the whole array is
divided by 255, and if no value exceeds 1 (in particular when all values
lie in `[0, 1]`) the array passes through to the conversion unchanged. -/
theorem rgb_normalize_iff (img : Image) :
    ((∃ v ∈ imageVals img, 1 < v) →
      normalizeImage img = img.map (List.map divPixel))
    ∧ ((∀ v ∈ imageVals img, v ≤ 1) → normalizeImage img = img) := by
  constructor
  · intro hex
    unfold normalizeImage
    rw [if_pos]
    rw [List.any_eq_true]
    rcases hex with ⟨v, hv, h1⟩
    exact ⟨v, hv, decide_eq_true h1⟩
  · intro hall
    unfold normalizeImage
    rw [if_neg]
    rw [List.any_eq_true]
    rintro ⟨v, hv, h1⟩
    exact absurd (of_decide_eq_true h1) (not_lt.mpr (hall v hv))

/-- C6, witness for `rgb_normalize_iff`: a byte-range image is divided by
255 and a unit-range image passes through unchanged. -/
theorem rgb_normalize_iff_witness :
    ((∃ v ∈ imageVals [[((255 : ℚ), 0, 10)]], 1 < v) ∧
      normalizeImage [[((255 : ℚ), 0, 10)]] =
        ([[((255 : ℚ), 0, 10)]] : Image).map (List.map divPixel))
    ∧ ((∀ v ∈ imageVals [[((1/2 : ℚ), 0, 1)]], v ≤ 1) ∧
      normalizeImage [[((1/2 : ℚ), 0, 1)]] = [[((1/2 : ℚ), 0, 1)]]) :=
  have h1 : ∃ v ∈ imageVals [[((255 : ℚ), 0, 10)]], 1 < v :=
    ⟨255, by norm_num [imageVals, pixelVals]⟩
  have h2 : ∀ v ∈ imageVals [[((1/2 : ℚ), 0, 1)]], v ≤ 1 := by
    norm_num [imageVals, pixelVals]
  ⟨⟨h1, (rgb_normalize_iff [[((255 : ℚ), 0, 10)]]).1 h1⟩,
    ⟨h2, (rgb_normalize_iff [[((1/2 : ℚ), 0, 1)]]).2 h2⟩⟩

theorem normalizeImage_row_length (img : Image) (W : ℕ)
    (hrect : ∀ r ∈ img, r.length = W) :
    ∀ r ∈ normalizeImage img, r.length = W := by
  unfold normalizeImage
  split
  · intro r hr
    rcases List.mem_map.mp hr with ⟨r0, hr0, rfl⟩
    rw [List.length_map]
    exact hrect r0 hr0
  · exact hrect

theorem flatten_getElem_rect {α : Type} (l : List (List α)) (W : ℕ)
    (hW : ∀ r ∈ l, r.length = W) (y x : ℕ) (hx : x < W) :
    l.flatten[y * W + x]? = l[y]?.bind (fun r => r[x]?) := by
  induction l generalizing y with
  | nil => simp
  | cons r t ih =>
    have hr : r.length = W := hW r (List.mem_cons_self r t)
    have ht : ∀ r' ∈ t, r'.length = W :=
      fun r' hr' => hW r' (List.mem_cons_of_mem r hr')
    cases y with
    | zero =>
      simp only [List.flatten_cons, Nat.zero_mul, Nat.zero_add]
      rw [List.getElem?_append_left (by rw [hr]; exact hx)]
      simp
    | succ y =>
      have hmul : (y + 1) * W = y * W + W := Nat.succ_mul y W
      have hlen : r.length ≤ (y + 1) * W + x := by rw [hr, hmul]; omega
      have hsub : (y + 1) * W + x - r.length = y * W + x := by
        rw [hr, hmul]; omega
      simp only [List.flatten_cons]
      rw [List.getElem?_append_right hlen, hsub, List.getElem?_cons_succ]
      exact ih ht y

/-- C5: both outputs of `rgb_to_lab_pixels` are flattened row-major: for
a rectangular image of width `W`, the entry at flattened index
`y * W + x` of the RGB output is the (normalized) source pixel at row
`y`, column `x`, the Lab entry at the same index is its conversion, and
for every index `i` the `i`-th Lab triple is the conversion of the
`i`-th normalized RGB triple (same original pixel). -/
theorem rgb_to_lab_pixels_row_major (conv : Pixel → Pixel) (img : Image)
    (W y x : ℕ) (hrect : ∀ r ∈ img, r.length = W) (hx : x < W) :
    ((rgb_to_lab_pixels conv img).2[y * W + x]? =
      (normalizeImage img)[y]?.bind (fun r => r[x]?))
    ∧ ((rgb_to_lab_pixels conv img).1[y * W + x]? =
      ((normalizeImage img)[y]?.bind (fun r => r[x]?)).map conv)
    ∧ ∀ i : ℕ, (rgb_to_lab_pixels conv img).1[i]? =
      ((rgb_to_lab_pixels conv img).2[i]?).map conv := by
  have hnorm := normalizeImage_row_length img W hrect
  have h2 : (rgb_to_lab_pixels conv img).2 =
      (normalizeImage img).flatten := rfl
  have h1 : (rgb_to_lab_pixels conv img).1 =
      ((normalizeImage img).map (List.map conv)).flatten := rfl
  have hmapflat : ((normalizeImage img).map (List.map conv)).flatten =
      (normalizeImage img).flatten.map conv :=
    (List.map_flatten conv (normalizeImage img)).symm
  refine ⟨?_, ?_, ?_⟩
  · rw [h2]
    exact flatten_getElem_rect _ W hnorm y x hx
  · rw [h1, hmapflat, List.getElem?_map,
      flatten_getElem_rect _ W hnorm y x hx]
  · intro i
    rw [h1, h2, hmapflat, List.getElem?_map]

/-- A concrete 2×2 byte-range image used to witness the flattening
order. -/
def imgW : Image := [[(2, 0, 0), (3, 0, 0)], [(4, 0, 0), (5, 0, 0)]]

/-- A concrete stand-in for the per-pixel conversion, used in
witnesses. -/
def convW : Pixel → Pixel := fun p => (p.1 + 1, p.2.1, p.2.2)

/-- C5, witness for `rgb_to_lab_pixels_row_major` at row 1, column 0 of
a 2×2 image (flattened index 2), with the pixel value evaluated. -/
theorem rgb_to_lab_pixels_row_major_witness :
    (∀ r ∈ imgW, r.length = 2) ∧ (0 : ℕ) < 2
    ∧ ((rgb_to_lab_pixels convW imgW).2[1 * 2 + 0]? =
      (normalizeImage imgW)[1]?.bind (fun r => r[0]?))
    ∧ ((rgb_to_lab_pixels convW imgW).1[1 * 2 + 0]? =
      ((normalizeImage imgW)[1]?.bind (fun r => r[0]?)).map convW)
    ∧ (normalizeImage imgW)[1]?.bind (fun r => r[0]?) =
      some ((4 / 255 : ℚ), 0, 0) :=
  ⟨by simp [imgW], by norm_num,
    (rgb_to_lab_pixels_row_major convW imgW 2 1 0 (by simp [imgW])
      (by norm_num)).1,
    (rgb_to_lab_pixels_row_major convW imgW 2 1 0 (by simp [imgW])
      (by norm_num)).2.1,
    by norm_num [imgW, normalizeImage, imageVals, pixelVals, divPixel]⟩

/-! ## Theorems about the planar visualizer (claims C3, C7) -/

/-- C3: the band filter of `plot_ab_planes` keeps exactly the samples
with `|L - L0| < 5`, and whenever the panel title reports a pixel count
it is the size of that filtered subset. -/
theorem plot_filter_exact (labs : List Pixel) (L0 : ℚ) :
    (∀ p, p ∈ filteredPixels labs L0 ↔ p ∈ labs ∧ |p.1 - L0| < 5)
    ∧ (∀ n, ((renderPanel labs L0).1).titleCount = some n →
      n = (filteredPixels labs L0).length) := by
  constructor
  · intro p
    unfold filteredPixels
    rw [List.mem_filter, decide_eq_true_eq, absQ_eq_abs]
    exact Iff.rfl
  · intro n h
    simp only [renderPanel] at h
    split at h
    · simp at h
    · exact (Option.some.inj h).symm

/-- Two concrete Lab samples used to witness band filtering. -/
def labsW : List Pixel := [(52, 1, 2), (10, 0, 0)]

/-- The sample of `labsW` within tolerance of level 50. -/
def pW : Pixel := (52, 1, 2)

/-- C3, witness for `plot_filter_exact` on two samples at target level
50: the sample with `L = 52` is kept, the one with `L = 10` is not, and
the title reports 1 pixel. -/
theorem plot_filter_exact_witness :
    (pW ∈ filteredPixels labsW 50 ↔ pW ∈ labsW ∧ |pW.1 - 50| < 5)
    ∧ (renderPanel labsW 50).1.titleCount = some 1
    ∧ (1 : ℕ) = (filteredPixels labsW 50).length :=
  have hc : (renderPanel labsW 50).1.titleCount = some 1 := by
    norm_num [renderPanel, filteredPixels, labsW, absQ, tolerance,
      List.filter]
  ⟨(plot_filter_exact labsW 50).1 pW, hc,
    (plot_filter_exact labsW 50).2 1 hc⟩

/-- C7: a requested level whose band is empty is handled without
failing: `plot_ab_planes` still returns one panel per requested level,
the panel at that level is the placeholder with both coordinate extents
fixed to `[-128, 127]`, and a diagnostic warning is emitted for that
level. -/
theorem plot_ab_planes_empty_band (labs : List Pixel) (Ls : List ℚ)
    (i : ℕ) (L0 : ℚ) (hL : Ls[i]? = some L0)
    (hfp : filteredPixels labs L0 = []) :
    (plot_ab_planes labs Ls).1[i]? =
      some ⟨true, (-128, 127), (-128, 127), [], none⟩
    ∧ L0 ∈ (plot_ab_planes labs Ls).2
    ∧ (plot_ab_planes labs Ls).1.length = Ls.length := by
  have hpanel : renderPanel labs L0 =
      (⟨true, (-128, 127), (-128, 127), [], none⟩, some L0) := by
    unfold renderPanel
    rw [if_pos (by rw [hfp]; rfl)]
  have hps : (plot_ab_planes labs Ls).1 =
      Ls.map (fun L => (renderPanel labs L).1) := by
    simp only [plot_ab_planes, List.map_map]
    rfl
  have hws : (plot_ab_planes labs Ls).2 =
      (Ls.map (renderPanel labs)).filterMap Prod.snd := rfl
  refine ⟨?_, ?_, ?_⟩
  · rw [hps, List.getElem?_map, hL]
    show some ((renderPanel labs L0).1) = _
    rw [hpanel]
  · rw [hws]
    rw [List.mem_filterMap]
    exact ⟨renderPanel labs L0,
      List.mem_map_of_mem (renderPanel labs) (List.getElem?_mem hL),
      by rw [hpanel]⟩
  · rw [hps, List.length_map]

/-- C7, witness for `plot_ab_planes_empty_band`: with a single sample at
`L = 50` and requested levels `[0, 50]`, the band at level 0 is empty,
yet both panels are produced, the first being the placeholder, and level
0 is warned about. -/
theorem plot_ab_planes_empty_band_witness :
    (([(0 : ℚ), 50])[0]? = some (0 : ℚ)
      ∧ filteredPixels [((50 : ℚ), 0, 0)] 0 = [])
    ∧ (plot_ab_planes [((50 : ℚ), 0, 0)] [0, 50]).1[0]? =
      some ⟨true, (-128, 127), (-128, 127), [], none⟩
    ∧ (0 : ℚ) ∈ (plot_ab_planes [((50 : ℚ), 0, 0)] [0, 50]).2
    ∧ (plot_ab_planes [((50 : ℚ), 0, 0)] [0, 50]).1.length =
      ([(0 : ℚ), 50]).length :=
  have hfp : filteredPixels [((50 : ℚ), 0, 0)] 0 = [] := by
    norm_num [filteredPixels, absQ, tolerance, List.filter]
  ⟨⟨rfl, hfp⟩,
    (plot_ab_planes_empty_band [((50 : ℚ), 0, 0)] [0, 50] 0 0 rfl hfp).1,
    (plot_ab_planes_empty_band [((50 : ℚ), 0, 0)] [0, 50] 0 0 rfl hfp).2.1,
    (plot_ab_planes_empty_band [((50 : ℚ), 0, 0)] [0, 50] 0 0 rfl hfp).2.2⟩

end LabSpaceViewer
